import Mathlib

/-!
Shallow embedding of the `dump` Go library (package `dump`, karlmcguire/dump):
an in-memory, mutex-guarded, append-only list of items with optional file
persistence (manual / on-write / interval) and JSON aggregation.

Modelling conventions:
* The store's methods are translated to pure state-passing functions on a
  `Dump` structure together with an explicit filesystem state `FS`.
* Items are opaque records: a registered type tag, opaque field data, and the
  behaviour of their own `MarshalJSON` method (whether it succeeds and what
  bytes it yields), matching the `Item` interface which only requires
  `MarshalJSON() ([]byte, error)`.
* The gob codec is Go standard library, not repository code.  Modelled from
  the spec: the persisted payload is a self-describing encoding of the
  in-order item sequence where each item carries its registered type tag, and
  decoding fails when a tag in the payload is not present in the registry.
* `gob.RegisterName` / the process-wide type registry.  Modelled from the
  spec: a process-wide mapping from type tag to prototype, last registration
  for a given tag wins.
* File writes either replace the whole file content or fail (e.g. a
  read-only destination), captured by `FS.writable`; reads fail when the
  file is absent.
* Locking is dropped: in this sequential model each operation is atomic,
  which is exactly what the lock provides in the source.
* Caller-supplied mutator callbacks receive a Go slice: they may overwrite
  elements in place (the tests do so through pointers) but cannot change the
  length the store observes.  `Mutator` therefore carries a
  length-preservation proof.  `View` readers are modelled as pure
  functions: mutating through a `View` callback under the shared lock is a
  data race in Go, hence outside the defined behaviour being modelled.
-/

/-- Errors surfaced by the store, plus caller-supplied errors (identity is
preserved by comparing whole `Err` values). -/
inductive Err where
  | invalidFilename : Err
  | invalidTypes : Err
  | invalidPersist : Err
  | ioError : Err
  | decodeError : Err
  | encodeError : String → Err
  | caller : String → Err
deriving DecidableEq

/-- An opaque record: its registered type tag, its opaque field data, and the
behaviour of its own JSON marshaller (success flag plus produced bytes). -/
structure Item where
  tag : String
  fields : String
  jsonOk : Bool
  json : String
deriving DecidableEq

/-- `PERSIST_MANUAL` from the source (iota = 0). -/
def PERSIST_MANUAL : Nat := 0

/-- `PERSIST_WRITES` from the source (iota = 1). -/
def PERSIST_WRITES : Nat := 1

/-- `PERSIST_INTERVAL` from the source (iota = 2). -/
def PERSIST_INTERVAL : Nat := 2

/-- A `dump.Type` registration: a tag name and a prototype value (the
prototype is opaque, represented by its description). -/
structure Type' where
  Name : String
  Value : String
deriving DecidableEq

/-- The process-wide gob type registry: tag name to prototype. -/
abbrev Registry := List (String × String)

/-- Modelled from the spec: `gob.RegisterName` puts a (tag, prototype) pair
into the process-wide registry; the new binding shadows older ones, so the
last registration for a tag wins under `List.lookup`. -/
def regInsert (reg : Registry) (n v : String) : Registry :=
  (n, v) :: reg

/-- Whether a tag is registered. -/
def regHas (reg : Registry) (n : String) : Bool :=
  (reg.lookup n).isSome

/-- The registration loop of `NewDump`: register each supplied pair in
order. -/
def registerAll (reg : Registry) (types : List Type') : Registry :=
  types.foldl (fun r t => regInsert r t.Name t.Value) reg

/-- Modelled from the spec: the gob payload is a self-describing encoding of
the in-order item sequence, each element carrying its type tag. -/
abbrev GobData := List Item

/-- `encodeGob`: serialize the item sequence (the encoder's error return is
discarded by the source). -/
def encodeGob (items : List Item) : GobData := items

/-- Modelled from the spec: gob decoding reconstructs the sequence and fails
when it encounters a type tag that is not registered. -/
def decodeGob (reg : Registry) (data : GobData) : Except Err (List Item) :=
  if data.all (fun i => regHas reg i.tag) then .ok data else .error .decodeError

/-- The filesystem: named whole-file contents, plus whether writes succeed
(a read-only destination makes every write fail). -/
structure FS where
  files : List (String × GobData)
  writable : Bool
deriving DecidableEq

/-- `ioutil.WriteFile`: replace the whole file content, or fail. -/
def FS.write (fs : FS) (name : String) (data : GobData) : Except Err FS :=
  if fs.writable then
    .ok { fs with files := (name, data) :: fs.files.filter (fun p => p.1 ≠ name) }
  else
    .error .ioError

/-- `ioutil.ReadFile`: return the whole file content, or fail when absent. -/
def FS.read (fs : FS) (name : String) : Except Err GobData :=
  match fs.files.lookup name with
  | some d => .ok d
  | none => .error .ioError

/-- The `Dump` struct: filename, item sequence, persistence setting (the
mutex is represented by the atomicity of each operation). -/
structure Dump where
  filename : String
  items : List Item
  persist : Nat
deriving DecidableEq

/-- `NewDump`: validate filename, validate types, register every type, then
validate the persist setting, then build the store.  The interval goroutine
is outside this sequential model. -/
def NewDump (reg : Registry) (filename : String) (persist : Nat)
    (types : List Type') : Registry × Except Err Dump :=
  if filename.length == 0 then
    (reg, .error .invalidFilename)
  else if types.length == 0 then
    (reg, .error .invalidTypes)
  else
    let reg' := registerAll reg types
    if !(persist == PERSIST_MANUAL || persist == PERSIST_WRITES ||
         persist == PERSIST_INTERVAL) then
      (reg', .error .invalidPersist)
    else
      (reg', .ok { filename := filename, items := [], persist := persist })

/-- An item's own `MarshalJSON` method. -/
def Item.MarshalJSON (i : Item) : Except Err String :=
  if i.jsonOk then .ok i.json else .error (.encodeError i.fields)

/-- `save` (lowercase, "no mutex"): write the gob encoding of the items to
the store's file. -/
def Dump.save (d : Dump) (fs : FS) : Except Err FS :=
  fs.write d.filename (encodeGob d.items)

/-- `Save` (public): take the read lock and call `save`.  Returned as
(error, receiver, filesystem) so frame properties are statable. -/
def Dump.Save (d : Dump) (fs : FS) : Option Err × Dump × FS :=
  match d.save fs with
  | .ok fs' => (none, d, fs')
  | .error e => (some e, d, fs)

/-- `Add`: append the item; under `PERSIST_WRITES` also `save`, returning the
save error alongside the id `len(items)-1`. -/
def Dump.Add (d : Dump) (fs : FS) (item : Item) : (Nat × Option Err) × Dump × FS :=
  let d' := { d with items := d.items ++ [item] }
  if d.persist == PERSIST_WRITES then
    match d'.save fs with
    | .ok fs' => ((d'.items.length - 1, none), d', fs')
    | .error e => ((d'.items.length - 1, some e), d', fs)
  else
    ((d'.items.length - 1, none), d', fs)

/-- The body of the store's `MarshalJSON` loop: each item's own encoding,
comma-separated, first failure propagated. -/
def marshalItems : List Item → Except Err String
  | [] => .ok ""
  | [i] => i.MarshalJSON
  | i :: j :: rest =>
    match i.MarshalJSON with
    | .error e => .error e
    | .ok s =>
      match marshalItems (j :: rest) with
      | .error e => .error e
      | .ok t => .ok (s ++ "," ++ t)

/-- `MarshalJSON` on the store: the comma-joined encodings wrapped in
brackets, or the first item encoding error with no partial output. -/
def Dump.MarshalJSON (d : Dump) : Except Err String × Dump :=
  (match marshalItems d.items with
   | .ok s => .ok ("[" ++ s ++ "]")
   | .error e => .error e, d)

/-- `Load`: read the store's file and decode it, replacing the item sequence
entirely on success; on either failure the sequence is untouched. -/
def Dump.Load (d : Dump) (reg : Registry) (fs : FS) : Option Err × Dump :=
  match fs.read d.filename with
  | .error e => (some e, d)
  | .ok data =>
    match decodeGob reg data with
    | .error e => (some e, d)
    | .ok items' => (none, { d with items := items' })

/-- A `View` reader callback, modelled read-only. -/
def Dump.View (d : Dump) (f : List Item → Option Err) : Option Err × Dump :=
  (f d.items, d)

/-- An `Update` mutator callback: it sees the whole slice and may overwrite
elements in place, but cannot change the length the store observes. -/
structure Mutator where
  run : List Item → List Item × Option Err
  len_eq : ∀ xs, (run xs).1.length = xs.length

/-- `Update`: run the mutator under the write lock; on mutator error return
it without persisting (in-place mutations stay); otherwise `save` under
`PERSIST_WRITES`. -/
def Dump.Update (d : Dump) (fs : FS) (m : Mutator) : Option Err × Dump × FS :=
  let r := m.run d.items
  let d' := { d with items := r.1 }
  match r.2 with
  | some e => (some e, d', fs)
  | none =>
    if d.persist == PERSIST_WRITES then
      match d'.save fs with
      | .ok fs' => (none, d', fs')
      | .error e => (some e, d', fs)
    else
      (none, d', fs)

/-- The `Map` loop: visit items left to right, replacing each by the
visitor's (possibly mutated) result, stopping at the first error. -/
def mapRun (g : Item → Item × Option Err) : List Item → List Item × Option Err
  | [] => ([], none)
  | i :: rest =>
    let r := g i
    match r.2 with
    | some e => (r.1 :: rest, some e)
    | none =>
      let rr := mapRun g rest
      (r.1 :: rr.1, rr.2)

/-- `Map`: run the visitor loop under the write lock; on first visitor error
return it without persisting; otherwise `save` under `PERSIST_WRITES`. -/
def Dump.Map (d : Dump) (fs : FS) (g : Item → Item × Option Err) :
    Option Err × Dump × FS :=
  let r := mapRun g d.items
  let d' := { d with items := r.1 }
  match r.2 with
  | some e => (some e, d', fs)
  | none =>
    if d.persist == PERSIST_WRITES then
      match d'.save fs with
      | .ok fs' => (none, d', fs')
      | .error e => (some e, d', fs)
    else
      (none, d', fs)

/-- Ghost instrumentation: the exact list of items the `Map` loop invokes the
visitor on, in order. -/
def mapTrace (g : Item → Item × Option Err) : List Item → List Item
  | [] => []
  | i :: rest =>
    match (g i).2 with
    | some _ => [i]
    | none => i :: mapTrace g rest

/-- Specification-side view of `Map`'s error: the visitor's error on the
first item (in ascending order) at which it fails. -/
def findFirstErr (g : Item → Item × Option Err) : List Item → Option Err
  | [] => none
  | i :: rest =>
    match (g i).2 with
    | some e => some e
    | none => findFirstErr g rest

/-- C4: For every store, `Add` returns id = old length (i.e. new length
minus 1) and grows the sequence by exactly one; in particular on an empty
store the id is 0 and ids form a dense, gapless, zero-based sequence. -/
theorem add_id_dense (d : Dump) (fs : FS) (item : Item) :
    (d.Add fs item).1.1 = d.items.length ∧
    (d.Add fs item).2.1.items.length = d.items.length + 1 := by
  unfold Dump.Add Dump.save FS.write
  split
  · split
    · simp_all
    · simp_all
  · simp

/-- `String.intercalate.go` distributes over a prepended accumulator. -/
theorem intercalate_go_append (s : String) : ∀ (as : List String) (acc b : String),
    String.intercalate.go (b ++ acc) s as = b ++ String.intercalate.go acc s as := by
  intro as
  induction as with
  | nil => intro acc b; rfl
  | cons a as ih =>
    intro acc b
    show String.intercalate.go (b ++ acc ++ s ++ a) s as
        = b ++ String.intercalate.go (acc ++ s ++ a) s as
    rw [← ih]
    congr 1
    simp [String.append_assoc]

/-- Unfolding equation for `String.intercalate` on a two-or-more list. -/
theorem intercalate_cons_cons (s x y : String) (l : List String) :
    String.intercalate s (x :: y :: l) = x ++ s ++ String.intercalate s (y :: l) := by
  show String.intercalate.go (x ++ s ++ y) s l = x ++ s ++ String.intercalate.go y s l
  exact intercalate_go_append s l y (x ++ s)

/-- The store's item loop agrees with: first failing item's error, else
the comma-joined successful encodings. -/
theorem marshalItems_spec : ∀ (items : List Item),
    marshalItems items = (match items.find? (fun i => !i.jsonOk) with
      | some i => .error (Err.encodeError i.fields)
      | none => .ok (String.intercalate "," (items.map Item.json))) := by
  intro items
  induction items with
  | nil => rfl
  | cons i rest ih =>
    cases rest with
    | nil =>
      cases hjs : i.jsonOk with
      | false => simp [marshalItems, Item.MarshalJSON, List.find?, hjs]
      | true => simp [marshalItems, Item.MarshalJSON, List.find?, hjs]; rfl
    | cons j rs =>
      cases hjs : i.jsonOk with
      | false => simp [marshalItems, Item.MarshalJSON, List.find?, hjs]
      | true =>
        rw [show marshalItems (i :: j :: rs)
            = (match i.MarshalJSON with
               | .error e => .error e
               | .ok s =>
                 match marshalItems (j :: rs) with
                 | .error e => .error e
                 | .ok t => .ok (s ++ "," ++ t)) from rfl]
        rw [ih]
        have hfind : List.find? (fun i => !i.jsonOk) (i :: j :: rs)
            = List.find? (fun i => !i.jsonOk) (j :: rs) := by
          simp [List.find?, hjs]
        rw [hfind]
        cases h : (j :: rs).find? (fun i => !i.jsonOk) with
        | none =>
          simp [Item.MarshalJSON, hjs, List.map, intercalate_cons_cons]
        | some k =>
          simp [Item.MarshalJSON, hjs]

/-- C5: `MarshalJSON` returns exactly a left bracket, each record's own JSON
encoding verbatim in sequence order joined with commas, and a right bracket,
with no surrounding whitespace; if any record's encoding fails the whole
operation fails with the first such error and no partial array. -/
theorem marshalJSON_spec (d : Dump) :
    (d.MarshalJSON).1 = (match d.items.find? (fun i => !i.jsonOk) with
      | some i => Except.error (Err.encodeError i.fields)
      | none =>
        Except.ok ("[" ++ String.intercalate "," (d.items.map Item.json) ++ "]")) := by
  show (match marshalItems d.items with
        | .ok s => Except.ok ("[" ++ s ++ "]")
        | .error e => Except.error e) = _
  rw [marshalItems_spec]
  cases h : d.items.find? (fun i => !i.jsonOk) with
  | none => rfl
  | some k => rfl

/-- C1: in OnWrite mode, when the write fails (read-only destination) `Add`
returns the save failure as its error, yet the appended record is retained in
memory and visible to a subsequent `View`; the file is untouched. -/
theorem add_save_failure_keeps_record (d : Dump) (fs : FS) (item : Item)
    (hp : d.persist = PERSIST_WRITES) (hw : fs.writable = false) :
    (d.Add fs item).1.2 = some Err.ioError ∧
    (d.Add fs item).2.1.items = d.items ++ [item] ∧
    (∀ g, ((d.Add fs item).2.1.View g).1 = g (d.items ++ [item])) ∧
    (d.Add fs item).2.2 = fs := by
  unfold Dump.Add Dump.save FS.write Dump.View
  simp [hp, hw]

/-- Witness for C1 at a concrete read-only filesystem. -/
theorem add_save_failure_keeps_record_witness :
    ((Dump.mk "t.db" [] PERSIST_WRITES).Add (FS.mk [] false)
        (Item.mk "dump.Blob" "hi" true "JHI")).1.2 = some Err.ioError ∧
    ((Dump.mk "t.db" [] PERSIST_WRITES).Add (FS.mk [] false)
        (Item.mk "dump.Blob" "hi" true "JHI")).2.1.items
      = [] ++ [Item.mk "dump.Blob" "hi" true "JHI"] :=
  ⟨(add_save_failure_keeps_record _ _ _ rfl rfl).1,
   (add_save_failure_keeps_record _ _ _ rfl rfl).2.1⟩

/-- A registered tag stays registered after further registrations. -/
theorem registerAll_mono (types : List Type') :
    ∀ (reg : Registry) (m : String), regHas reg m = true →
      regHas (registerAll reg types) m = true := by
  induction types with
  | nil => intro reg m h; exact h
  | cons ty rest ih =>
    intro reg m h
    apply ih
    by_cases hm : m = ty.Name
    · subst hm
      have hl : List.lookup ty.Name ((ty.Name, ty.Value) :: reg) = some ty.Value := by
        simp [List.lookup]
      simp [regHas, regInsert, hl]
    · have hbeq : (m == ty.Name) = false := beq_eq_false_iff_ne.mpr hm
      have hl : List.lookup m ((ty.Name, ty.Value) :: reg) = List.lookup m reg := by
        simp [List.lookup, hbeq]
      simpa [regHas, regInsert, hl] using h

/-- Every supplied registration is present after the registration loop. -/
theorem registerAll_has : ∀ (types : List Type') (reg : Registry) (t : Type'),
    t ∈ types → regHas (registerAll reg types) t.Name = true := by
  intro types
  induction types with
  | nil => intro reg t h; cases h
  | cons ty rest ih =>
    intro reg t h
    cases h with
    | head =>
      show regHas (registerAll (regInsert reg ty.Name ty.Value) rest) ty.Name = true
      apply registerAll_mono
      have hl : List.lookup ty.Name ((ty.Name, ty.Value) :: reg) = some ty.Value := by
        simp [List.lookup]
      unfold regHas regInsert
      rw [hl]
      rfl
    | tail _ h' => exact ih _ t h'

/-- C9: when filename and types are valid but the persistence mode is outside
the three recognized values, `NewDump` returns the invalid-persist error and
has nevertheless already registered every supplied (tag, prototype) pair into
the process-wide registry. -/
theorem newDump_invalid_persist_registers (reg : Registry) (filename : String)
    (persist : Nat) (types : List Type')
    (hf : filename.length ≠ 0) (ht : types.length ≠ 0)
    (h0 : persist ≠ PERSIST_MANUAL) (h1 : persist ≠ PERSIST_WRITES)
    (h2 : persist ≠ PERSIST_INTERVAL) :
    NewDump reg filename persist types
      = (registerAll reg types, .error Err.invalidPersist) ∧
    ∀ t ∈ types, regHas (registerAll reg types) t.Name = true := by
  constructor
  · unfold NewDump
    simp [hf, ht, h0, h1, h2]
  · intro t h
    exact registerAll_has types reg t h

/-- Witness for C9: persist mode 999 errors but the tag "meh" is
registered. -/
theorem newDump_invalid_persist_registers_witness :
    NewDump [] "test.db" 999 [Type'.mk "meh" "params"]
      = (registerAll [] [Type'.mk "meh" "params"], .error Err.invalidPersist) ∧
    regHas (registerAll [] [Type'.mk "meh" "params"]) "meh" = true :=
  ⟨(newDump_invalid_persist_registers [] "test.db" 999 [Type'.mk "meh" "params"]
      (by decide) (by decide) (by decide) (by decide) (by decide)).1,
   (newDump_invalid_persist_registers [] "test.db" 999 [Type'.mk "meh" "params"]
      (by decide) (by decide) (by decide) (by decide) (by decide)).2
     (Type'.mk "meh" "params") (by simp)⟩

/-- C10: `Save`, `View` and `MarshalJSON` leave the store (items, filename,
persistence mode) unchanged, and no operation ever changes the filename or
the persistence mode. -/
theorem readonly_ops_frame (d : Dump) (fs : FS) (f : List Item → Option Err)
    (m : Mutator) (g : Item → Item × Option Err) (item : Item) (reg : Registry) :
    (d.Save fs).2.1 = d ∧
    (d.View f).2 = d ∧
    (d.MarshalJSON).2 = d ∧
    (d.Add fs item).2.1.filename = d.filename ∧
    (d.Add fs item).2.1.persist = d.persist ∧
    (d.Update fs m).2.1.filename = d.filename ∧
    (d.Update fs m).2.1.persist = d.persist ∧
    (d.Map fs g).2.1.filename = d.filename ∧
    (d.Map fs g).2.1.persist = d.persist ∧
    (d.Load reg fs).2.filename = d.filename ∧
    (d.Load reg fs).2.persist = d.persist := by
  refine ⟨?_, rfl, rfl, ?_, ?_, ?_, ?_, ?_, ?_, ?_, ?_⟩ <;>
    · simp only [Dump.Save, Dump.Add, Dump.Update, Dump.Map, Dump.Load,
        Dump.save, FS.write, FS.read]
      repeat' split
      all_goals simp

/-- C2: `Save` followed by `Load` on a store with the same filename and the
same type registrations reproduces the saved sequence exactly — `Save`
serializes the whole sequence, `Load` replaces the in-memory sequence
entirely with the decoded contents. -/
theorem save_load_roundtrip (reg : Registry) (d d2 : Dump) (fs : FS)
    (hw : fs.writable = true)
    (hreg : ∀ i ∈ d.items, regHas reg i.tag = true)
    (hfn : d2.filename = d.filename) :
    (d.Save fs).1 = none ∧
    d2.Load reg (d.Save fs).2.2 = (none, { d2 with items := d.items }) := by
  have hsave : d.save fs = .ok
      { fs with files := (d.filename, encodeGob d.items)
          :: fs.files.filter (fun p => p.1 ≠ d.filename) } := by
    unfold Dump.save FS.write
    rw [if_pos hw]
  have h1 : d.Save fs = (none, d,
      { fs with files := (d.filename, encodeGob d.items)
          :: fs.files.filter (fun p => p.1 ≠ d.filename) }) := by
    unfold Dump.Save
    rw [hsave]
  refine ⟨by rw [h1], ?_⟩
  rw [h1]
  unfold Dump.Load FS.read
  rw [hfn]
  have hl : List.lookup d.filename
      ((d.filename, encodeGob d.items)
        :: fs.files.filter (fun p => p.1 ≠ d.filename)) = some (encodeGob d.items) := by
    simp [List.lookup]
  rw [hl]
  have hdec : decodeGob reg (encodeGob d.items) = .ok d.items := by
    unfold decodeGob encodeGob
    rw [if_pos]
    rw [List.all_eq_true]
    intro i hi
    exact hreg i hi
  simp [hdec]

/-- Witness for C2: one record saved from one store is reproduced by `Load`
into a second store on the same file. -/
theorem save_load_roundtrip_witness :
    ((Dump.mk "test.db" [Item.mk "dump.Blob" "hi" true "JHI"] PERSIST_MANUAL).Save
        (FS.mk [] true)).1 = none ∧
    (Dump.mk "test.db" [] PERSIST_MANUAL).Load [("dump.Blob", "Blob")]
        ((Dump.mk "test.db" [Item.mk "dump.Blob" "hi" true "JHI"] PERSIST_MANUAL).Save
          (FS.mk [] true)).2.2
      = (none, Dump.mk "test.db" [Item.mk "dump.Blob" "hi" true "JHI"] PERSIST_MANUAL) :=
  save_load_roundtrip [("dump.Blob", "Blob")]
    (Dump.mk "test.db" [Item.mk "dump.Blob" "hi" true "JHI"] PERSIST_MANUAL)
    (Dump.mk "test.db" [] PERSIST_MANUAL)
    (FS.mk [] true) rfl (by decide) rfl

/-- C3 counterexample: a mutator that overwrites an element in place and then
returns a caller error.  `Update` returns exactly that error and performs no
save, but the in-memory sequence is NOT left unchanged — the in-place
mutation survives, so the claim as stated is false. -/
theorem update_error_state_changed_counterexample :
    ((Dump.mk "test.db" [Item.mk "dump.Blob" "hi" true "JHI"] PERSIST_MANUAL).Update
        (FS.mk [] true)
        (Mutator.mk
          (fun xs => (xs.map (fun i => Item.mk i.tag "new" i.jsonOk i.json),
            some (Err.caller "boom")))
          (fun xs => by simp))).1 = some (Err.caller "boom") ∧
    ((Dump.mk "test.db" [Item.mk "dump.Blob" "hi" true "JHI"] PERSIST_MANUAL).Update
        (FS.mk [] true)
        (Mutator.mk
          (fun xs => (xs.map (fun i => Item.mk i.tag "new" i.jsonOk i.json),
            some (Err.caller "boom")))
          (fun xs => by simp))).2.1.items
      ≠ (Dump.mk "test.db" [Item.mk "dump.Blob" "hi" true "JHI"] PERSIST_MANUAL).items := by
  constructor
  · rfl
  · decide

/-- C3 amended: when the mutator reports an error, `Update` returns exactly
that error value (identity-preserved, unwrapped), performs no `save` (the
backing file is unchanged), and the sequence length is unchanged — but the
in-memory sequence holds whatever in-place element mutations the mutator
made before failing (no rollback). -/
theorem update_error_no_persist (d : Dump) (fs : FS) (m : Mutator)
    (its : List Item) (e : Err) (h : m.run d.items = (its, some e)) :
    d.Update fs m = (some e, { d with items := its }, fs) ∧
    its.length = d.items.length := by
  constructor
  · simp [Dump.Update, h]
  · have hlen := m.len_eq d.items
    rw [h] at hlen
    exact hlen

/-- Witness for the amended C3 at a concrete erroring mutator. -/
theorem update_error_no_persist_witness :
    (Dump.mk "test.db" [Item.mk "dump.Blob" "hi" true "JHI"] PERSIST_MANUAL).Update
        (FS.mk [] true)
        (Mutator.mk
          (fun xs => (xs.map (fun i => Item.mk i.tag "new" i.jsonOk i.json),
            some (Err.caller "boom")))
          (fun xs => by simp))
      = (some (Err.caller "boom"),
         Dump.mk "test.db" [Item.mk "dump.Blob" "new" true "JHI"] PERSIST_MANUAL,
         FS.mk [] true) ∧
    ([Item.mk "dump.Blob" "new" true "JHI"] : List Item).length
      = ([Item.mk "dump.Blob" "hi" true "JHI"] : List Item).length :=
  update_error_no_persist
    (Dump.mk "test.db" [Item.mk "dump.Blob" "hi" true "JHI"] PERSIST_MANUAL)
    (FS.mk [] true)
    (Mutator.mk
      (fun xs => (xs.map (fun i => Item.mk i.tag "new" i.jsonOk i.json),
        some (Err.caller "boom")))
      (fun xs => by simp))
    [Item.mk "dump.Blob" "new" true "JHI"] (Err.caller "boom") (by decide)

/-- C6 counterexample: `Load` from a file holding a shorter snapshot
succeeds and leaves the store with fewer records — an operation of the store
can remove elements, so unrestricted append-only is false. -/
theorem load_removes_elements_counterexample :
    ((Dump.mk "test.db"
        [Item.mk "dump.Blob" "a" true "JA", Item.mk "dump.Blob" "b" true "JB"]
        PERSIST_MANUAL).Load [("dump.Blob", "Blob")]
        (FS.mk [("test.db", [Item.mk "dump.Blob" "a" true "JA"])] true)).1 = none ∧
    ((Dump.mk "test.db"
        [Item.mk "dump.Blob" "a" true "JA", Item.mk "dump.Blob" "b" true "JB"]
        PERSIST_MANUAL).Load [("dump.Blob", "Blob")]
        (FS.mk [("test.db", [Item.mk "dump.Blob" "a" true "JA"])] true)).2.items.length
      < (Dump.mk "test.db"
          [Item.mk "dump.Blob" "a" true "JA", Item.mk "dump.Blob" "b" true "JB"]
          PERSIST_MANUAL).items.length := by
  constructor
  · rfl
  · decide

/-- The `Map` loop preserves the length of the sequence. -/
theorem mapRun_length (g : Item → Item × Option Err) :
    ∀ (xs : List Item), (mapRun g xs).1.length = xs.length := by
  intro xs
  induction xs with
  | nil => rfl
  | cons i rest ih =>
    show (mapRun g (i :: rest)).1.length = rest.length + 1
    unfold mapRun
    cases h : (g i).2 with
    | some e => simp [h]
    | none => simp [h, ih]

/-- C6 amended: `Add` extends the sequence by exactly one, returning the new
element's id, and `Update`, `Map`, `Save`, `View`, `MarshalJSON` never remove
elements or renumber ids (length and positions preserved); `Load`, however,
either fails leaving the sequence unchanged or replaces it entirely with the
decoded file contents, which may remove elements. -/
theorem append_only_except_load (d : Dump) (fs : FS) (item : Item)
    (m : Mutator) (g : Item → Item × Option Err) (f : List Item → Option Err)
    (reg : Registry) :
    (d.Add fs item).2.1.items = d.items ++ [item] ∧
    (d.Add fs item).1.1 = d.items.length ∧
    (d.Update fs m).2.1.items.length = d.items.length ∧
    (d.Map fs g).2.1.items.length = d.items.length ∧
    (d.Save fs).2.1.items = d.items ∧
    (d.View f).2.items = d.items ∧
    (d.MarshalJSON).2.items = d.items ∧
    ((d.Load reg fs).2.items = d.items ∨
      ∃ data, fs.read d.filename = .ok data ∧
        decodeGob reg data = .ok (d.Load reg fs).2.items) := by
  refine ⟨?_, ?_, ?_, ?_, ?_, rfl, rfl, ?_⟩
  · simp only [Dump.Add, Dump.save, FS.write]
    repeat' split
    all_goals simp
  · simp only [Dump.Add, Dump.save, FS.write]
    repeat' split
    all_goals simp
  · have hlen := m.len_eq d.items
    simp only [Dump.Update, Dump.save, FS.write]
    repeat' split
    all_goals simp_all
  · have hlen := mapRun_length g d.items
    simp only [Dump.Map, Dump.save, FS.write]
    repeat' split
    all_goals simp_all
  · simp only [Dump.Save, Dump.save, FS.write]
    repeat' split
    all_goals simp
  · cases hr : fs.read d.filename with
    | error e =>
      left
      simp [Dump.Load, hr]
    | ok data =>
      cases hd : decodeGob reg data with
      | error e =>
        left
        simp [Dump.Load, hr, hd]
      | ok items' =>
        right
        refine ⟨data, rfl, ?_⟩
        simp [Dump.Load, hr, hd]

/-- The items `Map` hands to the visitor form a prefix of the sequence (in
ascending id order). -/
theorem mapTrace_take (g : Item → Item × Option Err) :
    ∀ (xs : List Item), mapTrace g xs = xs.take (mapTrace g xs).length := by
  intro xs
  induction xs with
  | nil => rfl
  | cons i rest ih =>
    unfold mapTrace
    cases h : (g i).2 with
    | some e => simp
    | none =>
      rw [show (i :: mapTrace g rest).length = (mapTrace g rest).length + 1 from rfl]
      rw [List.take_succ_cons]
      rw [← ih]

/-- The `Map` loop's resulting error is the visitor's first failure in
ascending order. -/
theorem mapRun_err (g : Item → Item × Option Err) :
    ∀ (xs : List Item), (mapRun g xs).2 = findFirstErr g xs := by
  intro xs
  induction xs with
  | nil => rfl
  | cons i rest ih =>
    unfold mapRun findFirstErr
    cases h : (g i).2 with
    | some e => simp [h]
    | none => simp [h, ih]

/-- When the visitor never fails, `Map` visits every item. -/
theorem mapTrace_all_ok (g : Item → Item × Option Err) :
    ∀ (xs : List Item), findFirstErr g xs = none → mapTrace g xs = xs := by
  intro xs
  induction xs with
  | nil => intro _; rfl
  | cons i rest ih =>
    intro hok
    unfold findFirstErr at hok
    unfold mapTrace
    cases h : (g i).2 with
    | some e => rw [h] at hok; cases hok
    | none =>
      rw [h] at hok
      rw [ih hok]

/-- C7: `Map` invokes the visitor once per record in sequence order (the
visited items are a prefix of the sequence, and the whole sequence when no
visit fails), short-circuits returning the first failure without persisting,
and when every invocation succeeds in OnWrite mode performs a `save` and
returns its result. -/
theorem map_visits_in_order (d : Dump) (fs : FS) (g : Item → Item × Option Err) :
    mapTrace g d.items = d.items.take (mapTrace g d.items).length ∧
    (∀ e, findFirstErr g d.items = some e →
      (d.Map fs g).1 = some e ∧ (d.Map fs g).2.2 = fs) ∧
    (findFirstErr g d.items = none →
      mapTrace g d.items = d.items ∧
      (d.persist = PERSIST_WRITES →
        d.Map fs g
          = (match ({ d with items := (mapRun g d.items).1 }).save fs with
             | .ok fs' => (none, { d with items := (mapRun g d.items).1 }, fs')
             | .error e => (some e, { d with items := (mapRun g d.items).1 }, fs))) ∧
      (d.persist ≠ PERSIST_WRITES →
        (d.Map fs g).1 = none ∧ (d.Map fs g).2.2 = fs)) := by
  refine ⟨mapTrace_take g d.items, ?_, ?_⟩
  · intro e he
    have h2 : (mapRun g d.items).2 = some e := by rw [mapRun_err]; exact he
    simp [Dump.Map, h2]
  · intro he
    have h2 : (mapRun g d.items).2 = none := by rw [mapRun_err]; exact he
    refine ⟨mapTrace_all_ok g d.items he, ?_, ?_⟩
    · intro hp
      simp [Dump.Map, h2, hp]
    · intro hp
      have hb : (d.persist == PERSIST_WRITES) = false := beq_eq_false_iff_ne.mpr hp
      simp [Dump.Map, h2, hb]

/-- Witness for C7: a failing visitor short-circuits with its error and does
not persist; a succeeding visitor visits the whole sequence. -/
theorem map_visits_in_order_witness :
    ((Dump.mk "t.db" [Item.mk "dump.Blob" "bad" true "JB"] PERSIST_WRITES).Map
        (FS.mk [] true)
        (fun i => (i, if i.fields == "bad" then some (Err.caller "mapfail") else none))).1
      = some (Err.caller "mapfail") ∧
    ((Dump.mk "t.db" [Item.mk "dump.Blob" "bad" true "JB"] PERSIST_WRITES).Map
        (FS.mk [] true)
        (fun i => (i, if i.fields == "bad" then some (Err.caller "mapfail") else none))).2.2
      = FS.mk [] true ∧
    mapTrace
        (fun i => (i, if i.fields == "bad" then some (Err.caller "mapfail") else none))
        [Item.mk "dump.Blob" "ok" true "JO"]
      = [Item.mk "dump.Blob" "ok" true "JO"] :=
  ⟨((map_visits_in_order
      (Dump.mk "t.db" [Item.mk "dump.Blob" "bad" true "JB"] PERSIST_WRITES)
      (FS.mk [] true)
      (fun i => (i, if i.fields == "bad" then some (Err.caller "mapfail") else none))).2.1
      (Err.caller "mapfail") (by decide)).1,
   ((map_visits_in_order
      (Dump.mk "t.db" [Item.mk "dump.Blob" "bad" true "JB"] PERSIST_WRITES)
      (FS.mk [] true)
      (fun i => (i, if i.fields == "bad" then some (Err.caller "mapfail") else none))).2.1
      (Err.caller "mapfail") (by decide)).2,
   ((map_visits_in_order
      (Dump.mk "t.db" [Item.mk "dump.Blob" "ok" true "JO"] PERSIST_WRITES)
      (FS.mk [] true)
      (fun i => (i, if i.fields == "bad" then some (Err.caller "mapfail") else none))).2.2
      (by decide)).1⟩
